import Mathlib

/-!
Verification of the Daily Priority Tracker storage engine (`src/storage.js`).

Modelling conventions for the JavaScript source:
* JS numbers holding ids, minutes or priorities are `Int`; millisecond
  timestamps are `Int`.  ISO datetime strings (`eta`, `createdAt`,
  `updatedAt`, `completedAt`, `lastModified`) are represented by their
  parsed epoch-millisecond value; a present ISO string is always truthy,
  which is modelled by `Option.isSome` (`none` models both `null` and
  `undefined`).
* JS `x || d` on numbers (where `0` and `NaN` are falsy) is `jsOrNum`;
  on strings (where `""` is falsy) it is `jsOrStr`.
* Score arithmetic is exact over `ℚ`.  Every score term is an integer
  multiple of 1/10, so the stored score is kept as its (integer) number
  of tenths; `calculateSmartScore` is the source-shaped rational
  function and `smartScoreTenths_correct` links the two.
* Key-value ("localStorage") writes succeed on the read path; on the
  mutating repository operations a write failure is the explicit
  `saveOk` parameter.
-/

namespace DPT

instance exceptDecEq {ε α : Type} [DecidableEq ε] [DecidableEq α] :
    DecidableEq (Except ε α) := fun a b =>
  match a, b with
  | .error e, .error f =>
    if h : e = f then isTrue (h ▸ rfl) else isFalse (fun hc => h (Except.error.inj hc))
  | .error _, .ok _ => isFalse (fun hc => Except.noConfusion hc)
  | .ok _, .error _ => isFalse (fun hc => Except.noConfusion hc)
  | .ok x, .ok y =>
    if h : x = y then isTrue (h ▸ rfl) else isFalse (fun hc => h (Except.ok.inj hc))

/-- JS `x || d` for a number-valued field: `0`/`NaN`/absent fall back to `d`. -/
def jsOrNum (o : Option Int) (d : Int) : Int :=
  match o with
  | some n => if n = 0 then d else n
  | none => d

/-- JS `x || d` for a string-valued field: `""`/absent fall back to `d`. -/
def jsOrStr (o : Option String) (d : String) : String :=
  match o with
  | some s => if s = "" then d else s
  | none => d

/-- Whitespace recognised by the model of JS `String.prototype.trim`. -/
def isJsSpace (c : Char) : Bool :=
  c = ' ' || c = '\t' || c = '\n' || c = '\r'

/-- Model of JS `s.trim()`. -/
def jsTrim (s : String) : String :=
  ⟨(((s.data.dropWhile isJsSpace).reverse).dropWhile isJsSpace).reverse⟩

/-- Model of JS `s.toLowerCase()`. -/
def jsToLower (s : String) : String :=
  ⟨s.data.map Char.toLower⟩

/-- Source `leadsChars pat l` is true when `pat` occurs at the head of `l`. -/
def leadsChars : List Char → List Char → Bool
  | [], _ => true
  | _ :: _, [] => false
  | a :: as, b :: bs => a == b && leadsChars as bs

/-- Source `occursChars pat l` is true when `pat` occurs contiguously inside `l`. -/
def occursChars (pat : List Char) : List Char → Bool
  | [] => leadsChars pat []
  | c :: rest => leadsChars pat (c :: rest) || occursChars pat rest

/-- Model of JS `s.includes(pat)`. -/
def strContains (s pat : String) : Bool :=
  occursChars pat.data s.data

/-- Model of JS `Math.round` on an exact rational: round half toward `+∞`,
computed as `⌊q + 1/2⌋` (floor division of the numerator by the positive
denominator). -/
def jsRound (q : ℚ) : ℤ :=
  (q + 1 / 2).num.fdiv ((q + 1 / 2).den : ℤ)

theorem jsRound_eq_floor (q : ℚ) : jsRound q = ⌊q + 1 / 2⌋ := by
  rw [Rat.floor_def, jsRound, Int.fdiv_eq_ediv _ (Int.ofNat_nonneg _)]

/-- Zero-pad to two digits. -/
def pad2 (n : Int) : String :=
  if n < 10 then "0" ++ toString n else toString n

/-- Zero-pad to four digits. -/
def pad4 (n : Int) : String :=
  if n < 10 then "000" ++ toString n
  else if n < 100 then "00" ++ toString n
  else if n < 1000 then "0" ++ toString n
  else toString n

/-- Model of JS `new Date(ms).toISOString().split('T')[0]`: the proleptic
Gregorian calendar date (UTC) of an epoch-millisecond instant, as
`YYYY-MM-DD`. -/
def isoDate (now : Int) : String :=
  let z := now.fdiv 86400000 + 719468
  let era := z.fdiv 146097
  let doe := z - era * 146097
  let yoe := (doe - doe.fdiv 1460 + doe.fdiv 36524 - doe.fdiv 146096).fdiv 365
  let y := yoe + era * 400
  let doy := doe - (365 * yoe + yoe.fdiv 4 - yoe.fdiv 100)
  let mp := (5 * doy + 2).fdiv 153
  let d := doy - (153 * mp + 2).fdiv 5 + 1
  let m := mp + (if mp < 10 then 3 else -9)
  let y' := y + (if m ≤ 2 then 1 else 0)
  pad4 y' ++ "-" ++ pad2 m ++ "-" ++ pad2 d

/-- A stored comment: the validator keeps whatever array it finds, so an
entry is either a bare string or an `{id, text, timestamp}` record
(`addComment` only ever appends records). -/
inductive CommentVal where
  | plain (s : String)
  | entry (cid : Int) (text : String) (timestamp : Int)
deriving DecidableEq, Repr

/-- A validated task as persisted by `storage.js` (the output shape of
`validateTask`, lines 69-100).  `smartScoreTenths` stores the smart score
in exact tenths (see the header comment). -/
structure Task where
  id : Int
  name : String
  why : String
  eta : Option Int
  timeRequired : Int
  priority : Int
  eisenhowerMatrix : String
  completed : Bool
  createdAt : Int
  updatedAt : Int
  completedAt : Option Int
  comments : List CommentVal
  date : String
  overdue : Bool
  urgent : Bool
  important : Bool
  smartScoreTenths : Int
deriving DecidableEq, Repr, Inhabited

/-- The rational value of a stored smart score. -/
def Task.smartScore (t : Task) : ℚ :=
  (t.smartScoreTenths : ℚ) / 10

/-- The raw `comments` field of an unvalidated task: an array, or a truthy
scalar (wrapped by the validator), or a falsy/absent value. -/
inductive RawComments where
  | arr (l : List CommentVal)
  | scalar (c : Option CommentVal)
deriving DecidableEq, Repr

/-- An unvalidated task object (the input shape of `validateTask`).
`none` models an absent/`null`/falsy-of-that-type field. -/
structure RawTask where
  id : Option Int := none
  name : Option String := none
  why : Option String := none
  eta : Option Int := none
  timeRequired : Option Int := none
  priority : Option Int := none
  eisenhowerMatrix : Option String := none
  completed : Bool := false
  createdAt : Option Int := none
  updatedAt : Option Int := none
  completedAt : Option Int := none
  comments : RawComments := .scalar none
  date : Option String := none
deriving DecidableEq, Repr

/-- An arbitrary JSON value in a task position: either not an object
(rejected by `validateTask` line 71) or a raw task object. -/
inductive RawVal where
  | nonObject
  | obj (r : RawTask)
deriving DecidableEq, Repr

/-- Source `isTaskOverdue` (storage.js lines 105-108):
`if (!task.eta || task.completed) return false; return new Date(task.eta) < new Date()`. -/
def isTaskOverdue (eta : Option Int) (completed : Bool) (now : Int) : Bool :=
  match eta with
  | none => false
  | some e => !completed && decide (e < now)

/-- Source `isTaskUrgent` (lines 113-115). -/
def isTaskUrgent (em : String) : Bool :=
  em == "Q1" || em == "Q3"

/-- Source `isTaskImportant` (lines 120-122). -/
def isTaskImportant (em : String) : Bool :=
  em == "Q1" || em == "Q2"

/-- Priority term of `calculateSmartScore` (line 131): `task.priority / 100 * 40`. -/
def priorityScoreQ (priority : Int) : ℚ :=
  (priority : ℚ) / 100 * 40

/-- Urgency term of `calculateSmartScore` (lines 135-150): default 5; with an
eta, branch on the fractional days until it. -/
def urgencyScoreQ (eta : Option Int) (now : Int) : ℚ :=
  match eta with
  | none => 5
  | some e =>
    let daysUntilETA : ℚ := ((e : ℚ) - (now : ℚ)) / (24 * 60 * 60 * 1000)
    if daysUntilETA < 0 then 30
    else if daysUntilETA ≤ 1 then 25
    else if daysUntilETA ≤ 7 then 20
    else if daysUntilETA ≤ 30 then 10
    else 5

/-- Eisenhower term of `calculateSmartScore` (lines 154-160):
`eisenhowerScores[task.eisenhowerMatrix] || 15`. -/
def eisenhowerScoreQ (em : String) : ℚ :=
  if em = "Q1" then 20
  else if em = "Q2" then 15
  else if em = "Q3" then 10
  else if em = "Q4" then 5
  else 15

/-- Effort term of `calculateSmartScore` (lines 163-171). -/
def effortScoreQ (tr : Int) : ℚ :=
  if tr ≤ 30 then 10
  else if tr ≤ 120 then 8
  else if tr ≤ 480 then 5
  else 2

/-- Source `calculateSmartScore` (lines 127-174): the sum of the four terms,
then `Math.round(score * 10) / 10`. -/
def calculateSmartScore (priority : Int) (eta : Option Int) (em : String) (tr : Int)
    (now : Int) : ℚ :=
  let score : ℚ :=
    priorityScoreQ priority + urgencyScoreQ eta now + eisenhowerScoreQ em + effortScoreQ tr
  (jsRound (score * 10) : ℚ) / 10

/-- Urgency term in whole points, branching on milliseconds (equivalent to the
rational branch bounds: 1, 7 and 30 days in ms). -/
def urgencyScoreZ (eta : Option Int) (now : Int) : ℤ :=
  match eta with
  | none => 5
  | some e =>
    if e - now < 0 then 30
    else if e - now ≤ 86400000 then 25
    else if e - now ≤ 604800000 then 20
    else if e - now ≤ 2592000000 then 10
    else 5

/-- Eisenhower term in whole points. -/
def eisenhowerScoreZ (em : String) : ℤ :=
  if em = "Q1" then 20
  else if em = "Q2" then 15
  else if em = "Q3" then 10
  else if em = "Q4" then 5
  else 15

/-- Effort term in whole points. -/
def effortScoreZ (tr : Int) : ℤ :=
  if tr ≤ 30 then 10
  else if tr ≤ 120 then 8
  else if tr ≤ 480 then 5
  else 2

/-- Source `calculateSmartScore` in exact tenths: `score * 10` is the integer
`4 * priority + 10 * (urgency + eisenhower + effort)`, and `Math.round` of an
integer is the identity (`smartScoreTenths_correct` proves the link to the
source-shaped rational function). -/
def calculateSmartScoreTenths (priority : Int) (eta : Option Int) (em : String) (tr : Int)
    (now : Int) : ℤ :=
  4 * priority + 10 * (urgencyScoreZ eta now + eisenhowerScoreZ em + effortScoreZ tr)

/-- The object built by `validateTask` (lines 73-95) for an object input:
the normalized task, with the four derived fields stamped on it. -/
def validatedOf (task : RawTask) (now : Int) : Task :=
    let base : Task := {
      id := jsOrNum task.id now
      name := jsTrim (jsOrStr task.name "")
      why := jsTrim (jsOrStr task.why "")
      eta := task.eta
      timeRequired := max 5 (jsOrNum task.timeRequired 60)
      priority := min 100 (max 1 (jsOrNum task.priority 50))
      eisenhowerMatrix := jsOrStr task.eisenhowerMatrix "Q2"
      completed := task.completed
      createdAt := task.createdAt.getD now
      updatedAt := task.updatedAt.getD now
      completedAt := task.completedAt
      comments :=
        match task.comments with
        | .arr l => l
        | .scalar (some c) => [c]
        | .scalar none => []
      date := jsOrStr task.date (isoDate now)
      overdue := false
      urgent := false
      important := false
      smartScoreTenths := 0 }
    { base with
      overdue := isTaskOverdue base.eta base.completed now
      urgent := isTaskUrgent base.eisenhowerMatrix
      important := isTaskImportant base.eisenhowerMatrix
      smartScoreTenths :=
        calculateSmartScoreTenths base.priority base.eta base.eisenhowerMatrix
          base.timeRequired now }

/-- Source `validateTask` (lines 69-100): `null` for a non-object; otherwise the
validated object. -/
def validateTask (v : RawVal) (now : Int) : Option Task :=
  match v with
  | .nonObject => none
  | .obj task => some (validatedOf task now)

/-- The injection of a validated task back into the raw-object shape, for
re-validation. -/
def Task.toRaw (t : Task) : RawTask :=
  { id := some t.id
    name := some t.name
    why := some t.why
    eta := t.eta
    timeRequired := some t.timeRequired
    priority := some t.priority
    eisenhowerMatrix := some t.eisenhowerMatrix
    completed := t.completed
    createdAt := some t.createdAt
    updatedAt := some t.updatedAt
    completedAt := t.completedAt
    comments := .arr t.comments
    date := some t.date }

/-- The persisted collection `{version, createdAt, lastModified, tasks, nextId}`. -/
structure Collection where
  version : String
  createdAt : Int
  lastModified : Int
  tasks : List Task
  nextId : Int
deriving DecidableEq, Repr, Inhabited

/-- A parsed but unvalidated collection (the input of `validateAndMigrate`).
`tasks = none` models a missing or non-array `tasks` field. -/
structure RawCollection where
  version : Option String := none
  createdAt : Option Int := none
  lastModified : Option Int := none
  tasks : Option (List RawVal) := none
  nextId : Option Int := none
deriving DecidableEq, Repr, Inhabited

/-- The id of a raw entry, when it is an object with one (`t.id`). -/
def rawIdOf (v : RawVal) : Option Int :=
  match v with
  | .nonObject => none
  | .obj r => r.id

/-- Source `Math.max(...data.tasks.map(t => t.id), 0)` over the pre-validation
entries.  Faithful when every entry carries a numeric id; when some entry has
none, the JS expression yields `NaN`, which is outside this model, and every
theorem touching this value assumes ids are present. -/
def maxRawIds (l : List RawVal) : Int :=
  (l.filterMap rawIdOf).foldl max 0

/-- Source `validateAndMigrate` (lines 45-64): backfill missing top-level fields,
re-validate every task dropping rejects, refresh `lastModified`, persist
(modelled by returning the written collection). -/
def validateAndMigrate (d : RawCollection) (now : Int) : Collection :=
  let version := jsOrStr d.version "1.0.0"
  let createdAt := d.createdAt.getD now
  let tasks0 := d.tasks.getD []
  let nextId := jsOrNum d.nextId (maxRawIds tasks0 + 1)
  let tasks1 := tasks0.filterMap (fun v => validateTask v now)
  { version := version
    createdAt := createdAt
    lastModified := now
    tasks := tasks1
    nextId := nextId }

/-- Source `addTask` (lines 243-270). -/
def addTask (c : Collection) (taskData : RawTask) (now : Int) (saveOk : Bool) :
    Except String (Collection × Task) :=
  match validateTask (.obj { taskData with
      id := some c.nextId
      createdAt := some now
      updatedAt := some now
      completed := false
      date := some (isoDate now) }) now with
  | none => .error "Task name and why are required"
  | some newTask =>
    if newTask.name = "" || newTask.why = "" then .error "Task name and why are required"
    else if saveOk then
      .ok ({ c with tasks := c.tasks ++ [newTask], nextId := c.nextId + 1, lastModified := now },
        newTask)
    else .error "Failed to save task"

/-- A patch for `updateTask`: an outer `none` means the key is absent from the
patch object; the inner value is the raw field it sets. -/
structure Patch where
  name : Option (Option String) := none
  why : Option (Option String) := none
  eta : Option (Option Int) := none
  timeRequired : Option (Option Int) := none
  priority : Option (Option Int) := none
  eisenhowerMatrix : Option (Option String) := none
  completed : Option Bool := none
  createdAt : Option (Option Int) := none
  completedAt : Option (Option Int) := none
  comments : Option RawComments := none
  date : Option (Option String) := none
deriving DecidableEq, Repr, Inhabited

/-- The merged object `{...currentTask, ...updates, id: taskId,
updatedAt: now, completedAt: updates.completed && !currentTask.completed ?
now : currentTask.completedAt}` of `updateTask` (lines 285-291). -/
def mergeRaw (cur : Task) (p : Patch) (taskId : Int) (now : Int) : RawTask :=
  { id := some taskId
    name := p.name.getD (some cur.name)
    why := p.why.getD (some cur.why)
    eta := p.eta.getD cur.eta
    timeRequired := p.timeRequired.getD (some cur.timeRequired)
    priority := p.priority.getD (some cur.priority)
    eisenhowerMatrix := p.eisenhowerMatrix.getD (some cur.eisenhowerMatrix)
    completed := p.completed.getD cur.completed
    createdAt := p.createdAt.getD (some cur.createdAt)
    updatedAt := some now
    completedAt := if p.completed == some true && !cur.completed then some now else cur.completedAt
    comments := p.comments.getD (.arr cur.comments)
    date := p.date.getD (some cur.date) }

/-- Outcome of locating and re-validating the task at the patched index. -/
inductive UpdateOutcome where
  | notFound
  | invalid
  | ok (tasks : List Task) (t : Task)
deriving DecidableEq, Repr

/-- Source `findIndex` plus in-place replacement of `updateTask`: replace the first
task whose id matches with the validation of the merged object. -/
def updateFirst (taskId : Int) (p : Patch) (now : Int) : List Task → UpdateOutcome
  | [] => .notFound
  | t :: ts =>
    if t.id = taskId then
      match validateTask (.obj (mergeRaw t p taskId now)) now with
      | none => .invalid
      | some t' => .ok (t' :: ts) t'
    else
      match updateFirst taskId p now ts with
      | .notFound => .notFound
      | .invalid => .invalid
      | .ok ts' t' => .ok (t :: ts') t'

/-- Source `updateTask` (lines 275-307). -/
def updateTask (c : Collection) (taskId : Int) (p : Patch) (now : Int) (saveOk : Bool) :
    Except String (Collection × Task) :=
  match updateFirst taskId p now c.tasks with
  | .notFound => .error "Task not found"
  | .invalid => .error "Invalid task data"
  | .ok ts t =>
    if saveOk then .ok ({ c with tasks := ts, lastModified := now }, t)
    else .error "Failed to save task update"

/-- Source `deleteTask` (lines 312-330). -/
def deleteTask (c : Collection) (taskId : Int) (now : Int) (saveOk : Bool) :
    Except String Collection :=
  let ts := c.tasks.filter (fun t => !(t.id == taskId))
  if ts.length = c.tasks.length then .error "Task not found"
  else if saveOk then .ok { c with tasks := ts, lastModified := now }
  else .error "Failed to save after deletion"

/-- The in-place mutation of `addComment`: append the comment record to the
first task whose id matches, stamping `updatedAt`. -/
def pushCommentFirst (taskId : Int) (cm : CommentVal) (now : Int) : List Task → List Task
  | [] => []
  | t :: ts =>
    if t.id = taskId then { t with comments := t.comments ++ [cm], updatedAt := now } :: ts
    else t :: pushCommentFirst taskId cm now ts

/-- Source `addComment` (lines 335-369): the comment record is
`{id: Date.now(), text: comment.trim(), timestamp: now}`. -/
def addComment (c : Collection) (taskId : Int) (comment : String) (now : Int) (saveOk : Bool) :
    Except String (Collection × CommentVal) :=
  match c.tasks.find? (fun t => t.id == taskId) with
  | none => .error "Task not found"
  | some _ =>
    let ctext := jsTrim comment
    if ctext = "" then .error "Comment cannot be empty"
    else
      let cm := CommentVal.entry now ctext now
      if saveOk then
        .ok ({ c with tasks := pushCommentFirst taskId cm now c.tasks, lastModified := now }, cm)
      else .error "Failed to save comment"

/-- JS `Map` lookup built from `data.tasks.map(task => [task.id, task])`:
with duplicate keys the later entry wins, hence the search from the end. -/
def jsMapGet (ts : List Task) (k : Int) : Option Task :=
  ts.reverse.find? (fun t => t.id == k)

/-- The `taskIds.forEach((taskId, index) => ...)` pass of `reorderTasks`:
for each listed id found in the map, emit a copy with `priority = index + 1`
and `updatedAt = now`. -/
def reorderPass (ts : List Task) (now : Int) : List Int → Nat → List Task
  | [], _ => []
  | k :: ks, i =>
    match jsMapGet ts k with
    | some t => { t with priority := (i : Int) + 1, updatedAt := now } ::
        reorderPass ts now ks (i + 1)
    | none => reorderPass ts now ks (i + 1)

/-- Source `reorderTasks` (lines 374-413): reordered copies first, untouched tasks
(ids not listed) after, in their original order. -/
def reorderTasks (c : Collection) (taskIds : List Int) (now : Int) (saveOk : Bool) :
    Except String Collection :=
  let untouchedTasks := c.tasks.filter (fun t => !(taskIds.contains t.id))
  let reorderedTasks := reorderPass c.tasks now taskIds 0
  if saveOk then .ok { c with tasks := reorderedTasks ++ untouchedTasks, lastModified := now }
  else .error "Failed to save reordered tasks"

/-- An optional `{start, end}` date range (field names renamed: `end` is a
Lean keyword). -/
structure DateRange where
  startDate : String
  endDate : String
deriving DecidableEq, Repr

/-- The comment arm of the search predicate (lines 461-464): a bare string is
matched directly; a record is matched through its truthy `text`. -/
def commentMatches (searchTerm : String) (cm : CommentVal) : Bool :=
  match cm with
  | .plain s => strContains (jsToLower s) searchTerm
  | .entry _ text _ => !(text == "") && strContains (jsToLower text) searchTerm

/-- The date-range pre-filter of `searchTasks` (lines 451-455): applied only
when a range is given and both ends are truthy; the range check is the JS
string comparison `date >= start && date <= end`. -/
def dateFiltered (allTasks : List Task) (dateRange : Option DateRange) : List Task :=
  match dateRange with
  | some dr =>
    if !(dr.startDate == "") && !(dr.endDate == "") then
      allTasks.filter (fun (t : Task) =>
        !decide (t.date < dr.startDate) && !decide (dr.endDate < t.date))
    else allTasks
  | none => allTasks

/-- Source `searchTasks` (lines 441-470). -/
def searchTasks (allTasks : List Task) (query : String) (dateRange : Option DateRange) :
    List Task :=
  let searchTerm := jsTrim (jsToLower query)
  if searchTerm = "" then []
  else
    (dateFiltered allTasks dateRange).filter (fun t =>
      strContains (jsToLower t.name) searchTerm ||
      strContains (jsToLower t.why) searchTerm ||
      t.comments.any (commentMatches searchTerm))

/-- The JSON-parsed payload of `importData`: `tasks = none` models an absent
or non-array `tasks` field. -/
structure RawImport where
  createdAt : Option Int := none
  tasks : Option (List RawVal) := none
deriving DecidableEq, Repr, Inhabited

/-- Source `importData` (lines 494-532): reject when `tasks` is absent/not an array,
re-validate dropping rejects, recompute `nextId` from the processed ids. -/
def importData (payload : RawImport) (now : Int) (saveOk : Bool) :
    Except String (Collection × Nat) :=
  match payload.tasks with
  | none => .error "Invalid data format"
  | some l =>
    let processedTasks := l.filterMap (fun v => validateTask v now)
    let newData : Collection := {
      version := "1.0.0"
      createdAt := payload.createdAt.getD now
      lastModified := now
      tasks := processedTasks
      nextId := (processedTasks.map (fun t => t.id)).foldl max 0 + 1 }
    if saveOk then .ok (newData, processedTasks.length) else .error "Failed to save imported data"

/-- A persisted blob either JSON-parses to a raw collection or fails to parse. -/
inductive Blob where
  | parsed (d : RawCollection)
  | bad
deriving DecidableEq, Repr

/-- The two collection slots of the key-value namespace. -/
structure KVStore where
  main : Option Blob
  backup : Option Blob
deriving DecidableEq, Repr, Inhabited

/-- The fresh empty collection synthesized by the store (lines 24-30 and
632-638). -/
def freshData (now : Int) : RawCollection :=
  { version := some "1.0.0"
    createdAt := some now
    lastModified := some now
    tasks := some []
    nextId := some 1 }

/-- Source `handleStorageError` (lines 617-639): parse the backup slot if possible,
else synthesize a fresh empty collection; never raises. -/
def handleStorageError (st : KVStore) (now : Int) : RawCollection :=
  match st.backup with
  | some (.parsed b) => b
  | _ => freshData now

/-- Source `getAllData` (lines 179-191): parsed main slot; on a parse failure the
error-recovery result; when the slot is absent, write the fresh collection and
retry (the slot write is assumed to succeed, see the header). -/
def getAllData (st : KVStore) (now : Int) : RawCollection × KVStore :=
  match st.main with
  | some (.parsed d) => (d, st)
  | some .bad => (handleStorageError st now, st)
  | none => (freshData now, { st with main := some (.parsed (freshData now)) })

/-- The collection invariant of spec §3 on a task list and id counter:
the counter is above every id, ids are pairwise distinct — strengthened with
the positivity every reachable collection enjoys (ids are assigned from
`nextId`, which starts at 1). -/
def GoodPair (ts : List Task) (nid : Int) : Prop :=
  (∀ t ∈ ts, 0 < t.id ∧ t.id < nid) ∧ (ts.map (fun t => t.id)).Nodup ∧ 0 < nid

instance (ts : List Task) (nid : Int) : Decidable (GoodPair ts nid) := by
  unfold GoodPair; exact inferInstance

/-- The collection invariant of spec §3. -/
def GoodIds (c : Collection) : Prop :=
  GoodPair c.tasks c.nextId

instance (c : Collection) : Decidable (GoodIds c) := by
  unfold GoodIds; exact inferInstance

/-! ### Smart-score arithmetic -/

theorem jsRound_intCast (z : ℤ) : jsRound ((z : ℚ)) = z := by
  rw [jsRound_eq_floor]
  have h : ((z : ℚ) + 1 / 2) = 1 / 2 + (z : ℚ) := by ring
  have h0 : ⌊(1 / 2 : ℚ)⌋ = 0 := Int.floor_eq_zero_iff.2 ⟨by norm_num, by norm_num⟩
  rw [h, Int.floor_add_int, h0, zero_add]

theorem jsRound_mono {a b : ℚ} (h : a ≤ b) : jsRound a ≤ jsRound b := by
  rw [jsRound_eq_floor, jsRound_eq_floor]
  exact Int.floor_le_floor (by linarith)

theorem div_ms_lt_zero_iff (x : ℤ) :
    ((x : ℚ) / (24 * 60 * 60 * 1000) < 0) ↔ (x < 0) := by
  rw [div_lt_iff₀ (by norm_num : (0 : ℚ) < 24 * 60 * 60 * 1000)]
  norm_num

theorem div_ms_le_iff (x : ℤ) (b : ℚ) (bz : ℤ) (hb : b * (24 * 60 * 60 * 1000) = (bz : ℚ)) :
    ((x : ℚ) / (24 * 60 * 60 * 1000) ≤ b) ↔ (x ≤ bz) := by
  rw [div_le_iff₀ (by norm_num : (0 : ℚ) < 24 * 60 * 60 * 1000), hb, Int.cast_le]

theorem urgencyScoreZ_cast (eta : Option Int) (now : Int) :
    ((urgencyScoreZ eta now : ℤ) : ℚ) = urgencyScoreQ eta now := by
  cases eta with
  | none => simp [urgencyScoreZ, urgencyScoreQ]
  | some e =>
    have hd : ((e : ℚ) - (now : ℚ)) = (((e - now : ℤ)) : ℚ) := by push_cast; ring
    have h0 := div_ms_lt_zero_iff (e - now)
    have h1 := div_ms_le_iff (e - now) 1 86400000 (by norm_num)
    have h7 := div_ms_le_iff (e - now) 7 604800000 (by norm_num)
    have h30 := div_ms_le_iff (e - now) 30 2592000000 (by norm_num)
    simp only [urgencyScoreZ, urgencyScoreQ, hd, h0, h1, h7, h30]
    split_ifs <;> norm_num

theorem eisenhowerScoreZ_cast (em : String) :
    ((eisenhowerScoreZ em : ℤ) : ℚ) = eisenhowerScoreQ em := by
  simp only [eisenhowerScoreZ, eisenhowerScoreQ]
  split_ifs <;> norm_num

theorem effortScoreZ_cast (tr : Int) :
    ((effortScoreZ tr : ℤ) : ℚ) = effortScoreQ tr := by
  simp only [effortScoreZ, effortScoreQ]
  split_ifs <;> norm_num

/-- The stored tenths are exactly ten times the source-shaped rational score. -/
theorem smartScoreTenths_correct (p : Int) (eta : Option Int) (em : String) (tr now : Int) :
    ((calculateSmartScoreTenths p eta em tr now : ℤ) : ℚ) / 10 =
      calculateSmartScore p eta em tr now := by
  simp only [calculateSmartScore, calculateSmartScoreTenths]
  have hsum :
      (priorityScoreQ p + urgencyScoreQ eta now + eisenhowerScoreQ em + effortScoreQ tr) * 10 =
        ((4 * p + 10 * (urgencyScoreZ eta now + eisenhowerScoreZ em + effortScoreZ tr) : ℤ) : ℚ) := by
    rw [← urgencyScoreZ_cast, ← eisenhowerScoreZ_cast, ← effortScoreZ_cast, priorityScoreQ]
    push_cast; ring
  rw [hsum, jsRound_intCast]

theorem urgencyScoreZ_bounds (eta : Option Int) (now : Int) :
    5 ≤ urgencyScoreZ eta now ∧ urgencyScoreZ eta now ≤ 30 := by
  cases eta with
  | none => norm_num [urgencyScoreZ]
  | some e =>
    simp only [urgencyScoreZ]
    split_ifs <;> omega

theorem eisenhowerScoreZ_bounds (em : String) :
    5 ≤ eisenhowerScoreZ em ∧ eisenhowerScoreZ em ≤ 20 := by
  unfold eisenhowerScoreZ
  split_ifs <;> omega

theorem effortScoreZ_bounds (tr : Int) :
    2 ≤ effortScoreZ tr ∧ effortScoreZ tr ≤ 10 := by
  unfold effortScoreZ
  split_ifs <;> omega

theorem smartScoreTenths_bounds (p : Int) (eta : Option Int) (em : String) (tr now : Int)
    (hp1 : 1 ≤ p) (hp2 : p ≤ 100) :
    124 ≤ calculateSmartScoreTenths p eta em tr now ∧
      calculateSmartScoreTenths p eta em tr now ≤ 1000 := by
  have hu := urgencyScoreZ_bounds eta now
  have he := eisenhowerScoreZ_bounds em
  have hf := effortScoreZ_bounds tr
  unfold calculateSmartScoreTenths
  omega

/-! ### Spec-side score terms (for C4) -/

/-- Modelled from the spec's words (§4.2 urgency term): default 5 without an
eta; with one, branch on the fractional days `d` until it with the two-sided
ranges the spec spells out. -/
def specUrgencyTerm (eta : Option Int) (now : Int) : ℚ :=
  match eta with
  | none => 5
  | some e =>
    let d : ℚ := ((e : ℚ) - (now : ℚ)) / (24 * 60 * 60 * 1000)
    if d < 0 then 30
    else if 0 ≤ d ∧ d ≤ 1 then 25
    else if 1 < d ∧ d ≤ 7 then 20
    else if 7 < d ∧ d ≤ 30 then 10
    else 5

/-- Modelled from the spec's words (§4.2): `priority/100 * 40`. -/
def specPriorityTerm (p : Int) : ℚ :=
  (p : ℚ) / 100 * 40

/-- Modelled from the spec's words (§4.2): Q1→20, Q2→15, Q3→10, Q4→5,
unrecognized→15. -/
def specEisenhowerTerm (em : String) : ℚ :=
  if em = "Q1" then 20
  else if em = "Q2" then 15
  else if em = "Q3" then 10
  else if em = "Q4" then 5
  else 15

/-- Modelled from the spec's words (§4.2): ≤30min→10, ≤120min→8, ≤480min→5,
else 2. -/
def specEffortTerm (tr : Int) : ℚ :=
  if tr ≤ 30 then 10
  else if tr ≤ 120 then 8
  else if tr ≤ 480 then 5
  else 2

theorem specUrgencyTerm_eq (eta : Option Int) (now : Int) :
    specUrgencyTerm eta now = urgencyScoreQ eta now := by
  cases eta with
  | none => rfl
  | some e =>
    simp only [specUrgencyTerm, urgencyScoreQ]
    set d : ℚ := ((e : ℚ) - (now : ℚ)) / (24 * 60 * 60 * 1000) with hdd
    by_cases h1 : d < 0
    · rw [if_pos h1, if_pos h1]
    · have h1' : 0 ≤ d := not_lt.1 h1
      rw [if_neg h1, if_neg h1]
      by_cases h2 : d ≤ 1
      · rw [if_pos ⟨h1', h2⟩, if_pos h2]
      · rw [if_neg (fun hc => h2 hc.2), if_neg h2]
        have h2' : 1 < d := not_le.1 h2
        by_cases h3 : d ≤ 7
        · rw [if_pos ⟨h2', h3⟩, if_pos h3]
        · rw [if_neg (fun hc => h3 hc.2), if_neg h3]
          have h3' : 7 < d := not_le.1 h3
          by_cases h4 : d ≤ 30
          · rw [if_pos ⟨h3', h4⟩, if_pos h4]
          · rw [if_neg (fun hc => h4 hc.2), if_neg h4]

/-- C4: the urgency term is 5 without an eta and otherwise determined by the
fractional days `d` to the eta (30 if `d < 0`, 25 if `0 ≤ d ≤ 1`, 20 if
`1 < d ≤ 7`, 10 if `7 < d ≤ 30`, 5 if `d > 30`), and the total smart score is
the sum of the four terms rounded half-up at the tenths digit. -/
theorem C4_urgency_and_rounding (p : Int) (eta : Option Int) (em : String) (tr now : Int) :
    calculateSmartScore p eta em tr now =
      (jsRound ((specPriorityTerm p + specUrgencyTerm eta now + specEisenhowerTerm em +
        specEffortTerm tr) * 10) : ℚ) / 10 := by
  unfold calculateSmartScore
  rw [specUrgencyTerm_eq]
  rfl

/-- C3: for a validated task (priority clamped into [1,100], timeRequired at
least 5) the smart score lies in [7, 100]; holding the other fields and the
clock fixed it is monotonically non-decreasing in priority; and the score
stored by the validator satisfies the same bounds. -/
theorem C3_score_range_and_mono (p : Int) (eta : Option Int) (em : String) (tr now : Int)
    (hp1 : 1 ≤ p) (hp2 : p ≤ 100) (htr : 5 ≤ tr) :
    (7 ≤ calculateSmartScore p eta em tr now ∧ calculateSmartScore p eta em tr now ≤ 100) ∧
    (∀ p₁ p₂ : Int, p₁ ≤ p₂ →
      calculateSmartScore p₁ eta em tr now ≤ calculateSmartScore p₂ eta em tr now) ∧
    (∀ r t, validateTask (.obj r) now = some t →
      7 ≤ t.smartScore ∧ t.smartScore ≤ 100) := by
  refine ⟨?_, ?_, ?_⟩
  · have hb := smartScoreTenths_bounds p eta em tr now hp1 hp2
    rw [← smartScoreTenths_correct]
    have h1 : ((124 : ℤ) : ℚ) ≤ ((calculateSmartScoreTenths p eta em tr now : ℤ) : ℚ) :=
      Int.cast_le.2 hb.1
    have h2 : ((calculateSmartScoreTenths p eta em tr now : ℤ) : ℚ) ≤ ((1000 : ℤ) : ℚ) :=
      Int.cast_le.2 hb.2
    norm_num at h1 h2
    constructor <;> linarith
  · intro p₁ p₂ hle
    unfold calculateSmartScore
    have hmono : priorityScoreQ p₁ ≤ priorityScoreQ p₂ := by
      unfold priorityScoreQ
      have : (p₁ : ℚ) ≤ (p₂ : ℚ) := Int.cast_le.2 hle
      linarith
    have hr := jsRound_mono (show
      (priorityScoreQ p₁ + urgencyScoreQ eta now + eisenhowerScoreQ em + effortScoreQ tr) * 10 ≤
      (priorityScoreQ p₂ + urgencyScoreQ eta now + eisenhowerScoreQ em + effortScoreQ tr) * 10
      from by linarith)
    have hc : ((jsRound ((priorityScoreQ p₁ + urgencyScoreQ eta now + eisenhowerScoreQ em +
        effortScoreQ tr) * 10) : ℤ) : ℚ) ≤
        ((jsRound ((priorityScoreQ p₂ + urgencyScoreQ eta now + eisenhowerScoreQ em +
        effortScoreQ tr) * 10) : ℤ) : ℚ) := Int.cast_le.2 hr
    linarith
  · intro r t ht
    have hval : t = validatedOf r now := by
      simpa [validateTask] using ht.symm
    subst hval
    have hp1' : 1 ≤ (validatedOf r now).priority := by
      show 1 ≤ min 100 (max 1 (jsOrNum r.priority 50))
      omega
    have hp2' : (validatedOf r now).priority ≤ 100 := by
      show min 100 (max 1 (jsOrNum r.priority 50)) ≤ 100
      omega
    have hb := smartScoreTenths_bounds (validatedOf r now).priority (validatedOf r now).eta
      (validatedOf r now).eisenhowerMatrix (validatedOf r now).timeRequired now hp1' hp2'
    have hsc : (validatedOf r now).smartScoreTenths =
        calculateSmartScoreTenths (validatedOf r now).priority (validatedOf r now).eta
          (validatedOf r now).eisenhowerMatrix (validatedOf r now).timeRequired now := rfl
    unfold Task.smartScore
    rw [hsc]
    have h1 : ((124 : ℤ) : ℚ) ≤ _ := Int.cast_le.2 hb.1
    have h2 : _ ≤ ((1000 : ℤ) : ℚ) := Int.cast_le.2 hb.2
    norm_num at h1 h2
    constructor <;> linarith

/-- Witness for C3 at priority 50, no eta, Q2, 60 minutes, clock 0. -/
theorem C3_score_range_and_mono_witness :
    (1 ≤ (50 : Int) ∧ (50 : Int) ≤ 100 ∧ 5 ≤ (60 : Int)) ∧
      (7 ≤ calculateSmartScore 50 none "Q2" 60 0 ∧ calculateSmartScore 50 none "Q2" 60 0 ≤ 100) :=
  ⟨⟨by decide, by decide, by decide⟩,
    (C3_score_range_and_mono 50 none "Q2" 60 0 (by decide) (by decide) (by decide)).1⟩

/-! ### Validator field lemmas and C5 -/

theorem jsOrNum_of_ne (n d : Int) (h : n ≠ 0) : jsOrNum (some n) d = n := by
  simp [jsOrNum, h]

theorem jsOrStr_of_ne (s d : String) (h : s ≠ "") : jsOrStr (some s) d = s := by
  simp [jsOrStr, h]

theorem jsOrStr_ne_empty (o : Option String) (d : String) (hd : d ≠ "") :
    jsOrStr o d ≠ "" := by
  cases o with
  | none => exact hd
  | some s =>
    simp only [jsOrStr]
    split_ifs with h
    · exact hd
    · exact h

theorem validatedOf_priority_bounds (r : RawTask) (now : Int) :
    1 ≤ (validatedOf r now).priority ∧ (validatedOf r now).priority ≤ 100 := by
  have h : (validatedOf r now).priority = min 100 (max 1 (jsOrNum r.priority 50)) := rfl
  rw [h]
  omega

theorem validatedOf_timeRequired_bound (r : RawTask) (now : Int) :
    5 ≤ (validatedOf r now).timeRequired := by
  have h : (validatedOf r now).timeRequired = max 5 (jsOrNum r.timeRequired 60) := rfl
  rw [h]
  omega

theorem validatedOf_em_ne_empty (r : RawTask) (now : Int) :
    (validatedOf r now).eisenhowerMatrix ≠ "" := by
  have h : (validatedOf r now).eisenhowerMatrix = jsOrStr r.eisenhowerMatrix "Q2" := rfl
  rw [h]
  exact jsOrStr_ne_empty _ _ (by decide)

/-- C5: re-validating a validated task with an unchanged clock reproduces all
four derived fields (`overdue`, `urgent`, `important`, the stored smart
score). -/
theorem C5_validate_idempotent_derived (r : RawTask) (now : Int) (t : Task)
    (h : validateTask (.obj r) now = some t) :
    (validateTask (.obj t.toRaw) now).map (fun u => u.overdue) = some t.overdue ∧
    (validateTask (.obj t.toRaw) now).map (fun u => u.urgent) = some t.urgent ∧
    (validateTask (.obj t.toRaw) now).map (fun u => u.important) = some t.important ∧
    (validateTask (.obj t.toRaw) now).map (fun u => u.smartScoreTenths) =
      some t.smartScoreTenths := by
  have ht : t = validatedOf r now := by
    have := h
    simp only [validateTask, Option.some.injEq] at this
    exact this.symm
  subst ht
  have hprb := validatedOf_priority_bounds r now
  have htrb := validatedOf_timeRequired_bound r now
  have hemb := validatedOf_em_ne_empty r now
  -- the relevant base fields survive re-validation
  have hP : (validatedOf (validatedOf r now).toRaw now).priority =
      (validatedOf r now).priority := by
    have h0 : (validatedOf (validatedOf r now).toRaw now).priority =
        min 100 (max 1 (jsOrNum (some (validatedOf r now).priority) 50)) := rfl
    rw [h0, jsOrNum_of_ne _ _ (by omega)]
    omega
  have hT : (validatedOf (validatedOf r now).toRaw now).timeRequired =
      (validatedOf r now).timeRequired := by
    have h0 : (validatedOf (validatedOf r now).toRaw now).timeRequired =
        max 5 (jsOrNum (some (validatedOf r now).timeRequired) 60) := rfl
    rw [h0, jsOrNum_of_ne _ _ (by omega)]
    omega
  have hM : (validatedOf (validatedOf r now).toRaw now).eisenhowerMatrix =
      (validatedOf r now).eisenhowerMatrix := by
    have h0 : (validatedOf (validatedOf r now).toRaw now).eisenhowerMatrix =
        jsOrStr (some (validatedOf r now).eisenhowerMatrix) "Q2" := rfl
    rw [h0, jsOrStr_of_ne _ _ hemb]
  have hE : (validatedOf (validatedOf r now).toRaw now).eta = (validatedOf r now).eta := rfl
  have hC : (validatedOf (validatedOf r now).toRaw now).completed =
      (validatedOf r now).completed := rfl
  refine ⟨rfl, ?_, ?_, ?_⟩
  · exact congrArg some (show
      isTaskUrgent (validatedOf (validatedOf r now).toRaw now).eisenhowerMatrix =
        isTaskUrgent (validatedOf r now).eisenhowerMatrix from by rw [hM])
  · exact congrArg some (show
      isTaskImportant (validatedOf (validatedOf r now).toRaw now).eisenhowerMatrix =
        isTaskImportant (validatedOf r now).eisenhowerMatrix from by rw [hM])
  · exact congrArg some (show
      calculateSmartScoreTenths (validatedOf (validatedOf r now).toRaw now).priority
        (validatedOf (validatedOf r now).toRaw now).eta
        (validatedOf (validatedOf r now).toRaw now).eisenhowerMatrix
        (validatedOf (validatedOf r now).toRaw now).timeRequired now =
      calculateSmartScoreTenths (validatedOf r now).priority (validatedOf r now).eta
        (validatedOf r now).eisenhowerMatrix (validatedOf r now).timeRequired now from by
      rw [hP, hT, hM, hE])

/-- The sample raw task for the C5 witness. -/
def c5RawSample : RawTask := { name := some "a", why := some "b" }

/-- The validation of `c5RawSample` at clock 5. -/
def c5TaskSample : Task :=
  { id := 5, name := "a", why := "b", eta := none, timeRequired := 60, priority := 50,
    eisenhowerMatrix := "Q2", completed := false, createdAt := 5, updatedAt := 5,
    completedAt := none, comments := [], date := "1970-01-01", overdue := false,
    urgent := false, important := true, smartScoreTenths := 480 }

/-- Witness for C5 at a concrete validated task. -/
theorem C5_validate_idempotent_derived_witness :
    (validateTask (.obj c5TaskSample.toRaw) 5).map (fun u => u.overdue) =
      some c5TaskSample.overdue ∧
    (validateTask (.obj c5TaskSample.toRaw) 5).map (fun u => u.urgent) =
      some c5TaskSample.urgent ∧
    (validateTask (.obj c5TaskSample.toRaw) 5).map (fun u => u.important) =
      some c5TaskSample.important ∧
    (validateTask (.obj c5TaskSample.toRaw) 5).map (fun u => u.smartScoreTenths) =
      some c5TaskSample.smartScoreTenths :=
  C5_validate_idempotent_derived c5RawSample 5 c5TaskSample (by decide)

/-! ### C10: the "invalid data" branch of update is unreachable -/

theorem updateFirst_ne_invalid (taskId : Int) (p : Patch) (now : Int) :
    ∀ ts : List Task, updateFirst taskId p now ts ≠ .invalid := by
  intro ts
  induction ts with
  | nil => simp [updateFirst]
  | cons t ts ih =>
    simp only [updateFirst]
    split_ifs with h
    · simp [validateTask]
    · cases hm : updateFirst taskId p now ts <;> simp_all

/-- C10: `updateTask` never fails with "Invalid task data": the validator
returns a task for every object input, so the only outcomes are success,
"Task not found", or a persistence failure. -/
theorem C10_update_invalid_unreachable (c : Collection) (taskId : Int) (p : Patch)
    (now : Int) (saveOk : Bool) :
    updateTask c taskId p now saveOk ≠ .error "Invalid task data" ∧
    ((∃ c' t', updateTask c taskId p now saveOk = .ok (c', t')) ∨
      updateTask c taskId p now saveOk = .error "Task not found" ∨
      updateTask c taskId p now saveOk = .error "Failed to save task update") := by
  have hni := updateFirst_ne_invalid taskId p now c.tasks
  cases hm : updateFirst taskId p now c.tasks with
  | notFound => simp [updateTask, hm]
  | invalid => exact absurd hm hni
  | ok ts t =>
    cases saveOk with
    | false => simp [updateTask, hm]
    | true =>
      refine ⟨by simp [updateTask, hm], Or.inl ?_⟩
      exact ⟨{ c with tasks := ts, lastModified := now }, t, by simp [updateTask, hm]⟩

/-! ### C6: update merge/stamp semantics -/

theorem updateFirst_ok_decomp (taskId : Int) (p : Patch) (now : Int) :
    ∀ (ts ts' : List Task) (t' : Task), updateFirst taskId p now ts = .ok ts' t' →
    ∃ pre cur post, ts = pre ++ cur :: post ∧ (∀ x ∈ pre, x.id ≠ taskId) ∧ cur.id = taskId ∧
      t' = validatedOf (mergeRaw cur p taskId now) now ∧ ts' = pre ++ t' :: post := by
  intro ts
  induction ts with
  | nil => intro ts' t' h; simp [updateFirst] at h
  | cons t ts ih =>
    intro ts' t' h
    by_cases hid : t.id = taskId
    · simp only [updateFirst, if_pos hid, validateTask] at h
      cases h
      exact ⟨[], t, ts, rfl, by simp, hid, rfl, rfl⟩
    · simp only [updateFirst, if_neg hid] at h
      cases hrec : updateFirst taskId p now ts with
      | notFound => rw [hrec] at h; simp at h
      | invalid => rw [hrec] at h; simp at h
      | ok ts₀ t₀ =>
        rw [hrec] at h
        injection h with h1 h2
        subst h1
        subst h2
        obtain ⟨pre, cur, post, hts, hpre, hcur, ht', hts'⟩ := ih ts₀ t₀ hrec
        refine ⟨t :: pre, cur, post, by rw [hts]; rfl, ?_, hcur, ht', by rw [hts']; rfl⟩
        intro x hx
        rcases List.mem_cons.1 hx with h1 | h2
        · subst h1; exact hid
        · exact hpre x h2

theorem updateFirst_of_parts (taskId : Int) (p : Patch) (now : Int)
    (pre : List Task) (cur : Task) (post : List Task)
    (hpre : ∀ x ∈ pre, x.id ≠ taskId) (hcur : cur.id = taskId) :
    updateFirst taskId p now (pre ++ cur :: post) =
      .ok (pre ++ validatedOf (mergeRaw cur p taskId now) now :: post)
        (validatedOf (mergeRaw cur p taskId now) now) := by
  induction pre with
  | nil => simp [updateFirst, hcur, validateTask]
  | cons x pre ih =>
    have hx : x.id ≠ taskId := hpre x (by simp)
    have ih' := ih (fun y hy => hpre y (by simp [hy]))
    simp only [List.cons_append, updateFirst, if_neg hx, List.append_eq, ih']

theorem find?_first_part {α : Type} (pred : α → Bool) :
    ∀ (pre : List α) (cur : α) (post : List α),
    (∀ x ∈ pre, pred x = false) → pred cur = true →
    List.find? pred (pre ++ cur :: post) = some cur := by
  intro pre
  induction pre with
  | nil => intro cur post _ hc; simp [List.find?_cons, hc]
  | cons x pre ih =>
    intro cur post hpre hc
    have hx : pred x = false := hpre x (by simp)
    simp only [List.cons_append, List.find?_cons, hx]
    exact ih cur post (fun y hy => hpre y (by simp [hy])) hc

theorem mergeRaw_completedAt_iff (cur : Task) (p : Patch) (taskId now : Int) :
    (mergeRaw cur p taskId now).completedAt =
      (if p.completed = some true ∧ cur.completed = false then some now
        else cur.completedAt) := by
  show (if p.completed == some true && !cur.completed then some now else cur.completedAt) = _
  rcases hpc : p.completed with _ | b
  · cases hcc : cur.completed <;> simp
  · cases b <;> cases hcc : cur.completed <;> simp

/-- C6: a successful `update(id, patch)` returns the validation of the merge
of the patch over the stored task, keeps the id, stamps `updatedAt = now`,
sets `completedAt = now` exactly on the false→true transition of `completed`
(otherwise preserving the stored `completedAt`); and a second
`update(id, {completed: true})` in a row leaves `completedAt` unchanged. -/
theorem C6_update_semantics (c : Collection) (taskId : Int) (p : Patch) (now : Int)
    (cur : Task) (hfind : c.tasks.find? (fun t => t.id == taskId) = some cur)
    (hid0 : taskId ≠ 0) :
    (∀ c' t', updateTask c taskId p now true = .ok (c', t') →
      validateTask (.obj (mergeRaw cur p taskId now)) now = some t' ∧
      t'.id = taskId ∧ t'.updatedAt = now ∧
      t'.completedAt = (if p.completed = some true ∧ cur.completed = false then some now
        else cur.completedAt)) ∧
    (∀ now₁ now₂ c₁ t₁ c₂ t₂,
      updateTask c taskId { completed := some true } now₁ true = .ok (c₁, t₁) →
      updateTask c₁ taskId { completed := some true } now₂ true = .ok (c₂, t₂) →
      t₂.completedAt = t₁.completedAt) := by
  constructor
  · intro c' t' h
    cases hm : updateFirst taskId p now c.tasks with
    | notFound => simp [updateTask, hm] at h
    | invalid => simp [updateTask, hm] at h
    | ok ts u =>
      simp only [updateTask, hm, if_pos] at h
      rw [Except.ok.injEq, Prod.mk.injEq] at h
      obtain ⟨pre, cur₀, post, hts, hpre, hcur, hu, _⟩ := updateFirst_ok_decomp taskId p now _ _ _ hm
      have hcur₀ : cur₀ = cur := by
        have hf : c.tasks.find? (fun t => t.id == taskId) = some cur₀ := by
          rw [hts]
          exact find?_first_part _ pre cur₀ post
            (fun x hx => beq_eq_false_iff_ne.2 (hpre x hx)) (beq_iff_eq.2 hcur)
        rw [hf] at hfind
        exact (Option.some.injEq _ _ ▸ hfind)
      subst hcur₀
      have ht' : t' = validatedOf (mergeRaw cur₀ p taskId now) now := by rw [← h.2, hu]
      subst ht'
      refine ⟨rfl, ?_, rfl, ?_⟩
      · show jsOrNum (some taskId) now = taskId
        exact jsOrNum_of_ne _ _ hid0
      · show (mergeRaw cur₀ p taskId now).completedAt = _
        exact mergeRaw_completedAt_iff cur₀ p taskId now
  · intro now₁ now₂ c₁ t₁ c₂ t₂ h₁ h₂
    cases hm₁ : updateFirst taskId { completed := some true } now₁ c.tasks with
    | notFound => simp [updateTask, hm₁] at h₁
    | invalid => simp [updateTask, hm₁] at h₁
    | ok ts₁ u₁ =>
      simp only [updateTask, hm₁, if_pos] at h₁
      rw [Except.ok.injEq, Prod.mk.injEq] at h₁
      obtain ⟨pre, cur₀, post, hts, hpre, hcur, hu₁, hts₁⟩ :=
        updateFirst_ok_decomp taskId { completed := some true } now₁ _ _ _ hm₁
      have hc₁tasks : c₁.tasks = pre ++ u₁ :: post := by
        rw [← h₁.1, hts₁]
      have ht₁ : t₁ = u₁ := h₁.2.symm
      subst ht₁
      have ht₁id : t₁.id = taskId := by
        rw [hu₁]
        show jsOrNum (some taskId) now₁ = taskId
        exact jsOrNum_of_ne _ _ hid0
      have ht₁completed : t₁.completed = true := by
        rw [hu₁]
        rfl
      have hsecond := updateFirst_of_parts taskId { completed := some true } now₂
        pre t₁ post hpre ht₁id
      rw [← hc₁tasks] at hsecond
      simp only [updateTask, hsecond, if_pos] at h₂
      rw [Except.ok.injEq, Prod.mk.injEq] at h₂
      have ht₂ : t₂ = validatedOf (mergeRaw t₁ { completed := some true } taskId now₂) now₂ :=
        h₂.2.symm
      subst ht₂
      show (mergeRaw t₁ { completed := some true } taskId now₂).completedAt = t₁.completedAt
      rw [mergeRaw_completedAt_iff]
      rw [if_neg]
      intro hcontra
      rw [ht₁completed] at hcontra
      exact absurd hcontra.2 (by decide)

/-- The stored task for the C6 witness. -/
def c6Cur : Task :=
  { id := 1, name := "a", why := "b", eta := none, timeRequired := 60, priority := 50,
    eisenhowerMatrix := "Q2", completed := false, createdAt := 1, updatedAt := 1,
    completedAt := none, comments := [], date := "1970-01-01", overdue := false,
    urgent := false, important := true, smartScoreTenths := 480 }

/-- The collection for the C6 witness. -/
def c6Coll : Collection :=
  { version := "1.0.0", createdAt := 1, lastModified := 1, tasks := [c6Cur], nextId := 2 }

/-- The task returned by `update(1, {completed: true})` at clock 9 on `c6Coll`. -/
def c6After : Task :=
  { id := 1, name := "a", why := "b", eta := none, timeRequired := 60, priority := 50,
    eisenhowerMatrix := "Q2", completed := true, createdAt := 1, updatedAt := 9,
    completedAt := some 9, comments := [], date := "1970-01-01", overdue := false,
    urgent := false, important := true, smartScoreTenths := 480 }

/-- Witness for C6: completing task 1 at clock 9 stamps `updatedAt = 9` and
`completedAt = some 9`. -/
theorem C6_update_semantics_witness :
    validateTask (.obj (mergeRaw c6Cur { completed := some true } 1 9)) 9 = some c6After ∧
    c6After.id = 1 ∧ c6After.updatedAt = 9 ∧
    c6After.completedAt =
      (if ({ completed := some true } : Patch).completed = some true ∧ c6Cur.completed = false
        then some 9 else c6Cur.completedAt) :=
  (C6_update_semantics c6Coll 1 { completed := some true } 9 c6Cur (by decide) (by decide)).1
    ({ c6Coll with tasks := [c6After], lastModified := 9 }) c6After (by decide)

/-! ### C7: reorder semantics -/

theorem jsMapGet_eq_find? (ts : List Task) (hnd : (ts.map (fun t => t.id)).Nodup) (k : Int) :
    jsMapGet ts k = ts.find? (fun t => t.id == k) := by
  induction ts with
  | nil => rfl
  | cons t ts ih =>
    rw [List.map_cons, List.nodup_cons] at hnd
    simp only [jsMapGet, List.reverse_cons, List.find?_append, List.find?_cons]
    cases hk : (t.id == k) with
    | true =>
      have hknd : ts.find? (fun t => t.id == k) = none := by
        rw [List.find?_eq_none]
        intro x hx hpx
        exact hnd.1 (by
          have : x.id = t.id := by
            have h1 : x.id = k := by simpa using hpx
            have h2 : t.id = k := by simpa using hk
            rw [h1, h2]
          rw [← this]
          exact List.mem_map_of_mem (fun t => t.id) hx)
      have hrev : (ts.reverse).find? (fun t => t.id == k) = none := by
        rw [List.find?_eq_none] at hknd ⊢
        intro x hx
        exact hknd x (List.mem_reverse.1 hx)
      show ((ts.reverse).find? (fun t => t.id == k)).or (some t) = some t
      rw [hrev]
      rfl
    | false =>
      show ((ts.reverse).find? (fun t => t.id == k)).or none = ts.find? (fun t => t.id == k)
      rw [Option.or_none]
      exact ih hnd.2

/-- Modelled from the spec's words (§4.4 reorder): the tasks named by
`orderedIds`, in that order, each reassigned `priority = position + 1`
(1-based) and `updatedAt = now`. -/
def specReorderListed (ts : List Task) (now : Int) : List Int → Nat → List Task
  | [], _ => []
  | k :: ks, i =>
    match ts.find? (fun t => t.id == k) with
    | some t => { t with priority := (i : Int) + 1, updatedAt := now } ::
        specReorderListed ts now ks (i + 1)
    | none => specReorderListed ts now ks (i + 1)

/-- Modelled from the spec's words (§4.4 reorder): listed tasks first, then
every remaining task with its original priority and relative order. -/
def specReorder (ts : List Task) (ids : List Int) (now : Int) : List Task :=
  specReorderListed ts now ids 0 ++ ts.filter (fun t => !(ids.contains t.id))

theorem reorderPass_eq_spec (ts : List Task) (now : Int)
    (hnd : (ts.map (fun t => t.id)).Nodup) :
    ∀ (ids : List Int) (i : Nat), reorderPass ts now ids i = specReorderListed ts now ids i := by
  intro ids
  induction ids with
  | nil => intro i; rfl
  | cons k ks ih =>
    intro i
    simp only [reorderPass, specReorderListed, jsMapGet_eq_find? ts hnd k]
    cases hf : ts.find? (fun t => t.id == k) <;> simp [hf, ih]

/-- C7: with pairwise-distinct stored ids (the collection invariant), reorder
produces exactly the spec's description: each task whose id appears in
`orderedIds` reassigned `priority = its 1-based position` and
`updatedAt = now`, first and in the given order, followed by all remaining
tasks unchanged and in their original relative order. -/
theorem C7_reorder_spec (c : Collection) (ids : List Int) (now : Int)
    (hnd : (c.tasks.map (fun t => t.id)).Nodup) :
    reorderTasks c ids now true =
      .ok { c with tasks := specReorder c.tasks ids now, lastModified := now } := by
  simp only [reorderTasks, if_pos, specReorder, reorderPass_eq_spec c.tasks now hnd]

/-- Three tasks for the C7 witness. -/
def c7Task1 : Task :=
  { id := 1, name := "a", why := "w", eta := none, timeRequired := 60, priority := 11,
    eisenhowerMatrix := "Q2", completed := false, createdAt := 1, updatedAt := 1,
    completedAt := none, comments := [], date := "1970-01-01", overdue := false,
    urgent := false, important := true, smartScoreTenths := 480 }

def c7Task2 : Task :=
  { c7Task1 with id := 2, name := "b", priority := 77 }

def c7Task3 : Task :=
  { c7Task1 with id := 3, name := "c", priority := 33 }

def c7Coll : Collection :=
  { version := "1.0.0", createdAt := 1, lastModified := 1,
    tasks := [c7Task1, c7Task2, c7Task3], nextId := 4 }

/-- Witness for C7, the spec's own example: `reorder([3,1])` on tasks
`{1,2,3}` gives task 3 priority 1, task 1 priority 2, and leaves task 2
untouched after them. -/
theorem C7_reorder_spec_witness :
    reorderTasks c7Coll [3, 1] 9 true =
      .ok { c7Coll with
        tasks := [{ c7Task3 with priority := 1, updatedAt := 9 },
          { c7Task1 with priority := 2, updatedAt := 9 }, c7Task2],
        lastModified := 9 } :=
  (C7_reorder_spec c7Coll [3, 1] 9 (by decide)).trans (by decide)

/-! ### C8: search semantics -/

/-- Modelled from the spec's words (§4.4 search): the optional inclusive
date-range pre-filter, applied only when both bounds are truthy. -/
def inDateRange (dr : Option DateRange) (t : Task) : Bool :=
  match dr with
  | some r =>
    if !(r.startDate == "") && !(r.endDate == "") then
      !decide (t.date < r.startDate) && !decide (r.endDate < t.date)
    else true
  | none => true

/-- C8 (amended): a query whose lowercased trim is empty returns the empty
result; otherwise a task is returned iff it passes the optional inclusive
date-range pre-filter and the lowercased, trimmed query occurs in its
lowercased name, its lowercased why, or one of its comment texts. -/
theorem C8_search_amended (tasks : List Task) (query : String) (dr : Option DateRange) :
    (jsTrim (jsToLower query) = "" → searchTasks tasks query dr = []) ∧
    (jsTrim (jsToLower query) ≠ "" → ∀ t, t ∈ searchTasks tasks query dr ↔
      (t ∈ tasks ∧ inDateRange dr t = true ∧
        (strContains (jsToLower t.name) (jsTrim (jsToLower query)) = true ∨
         strContains (jsToLower t.why) (jsTrim (jsToLower query)) = true ∨
         ∃ cm ∈ t.comments, commentMatches (jsTrim (jsToLower query)) cm = true))) := by
  constructor
  · intro h
    simp [searchTasks, h]
  · intro h t
    have hmem : t ∈ dateFiltered tasks dr ↔ (t ∈ tasks ∧ inDateRange dr t = true) := by
      cases dr with
      | none => simp [dateFiltered, inDateRange]
      | some r =>
        simp only [dateFiltered, inDateRange]
        by_cases hc : (!(r.startDate == "") && !(r.endDate == "")) = true
        · rw [if_pos hc, if_pos hc]
          exact List.mem_filter
        · rw [if_neg hc, if_neg hc]
          simp
    simp only [searchTasks, if_neg h, List.mem_filter]
    rw [hmem]
    constructor
    · intro hx
      refine ⟨hx.1.1, hx.1.2, ?_⟩
      have hb := hx.2
      rw [Bool.or_eq_true, Bool.or_eq_true, List.any_eq_true, or_assoc] at hb
      exact hb
    · intro hx
      refine ⟨⟨hx.1, hx.2.1⟩, ?_⟩
      rw [Bool.or_eq_true, Bool.or_eq_true, List.any_eq_true, or_assoc]
      exact hx.2.2

/-- A task whose name contains a space, for the C8 counterexample. -/
def c8Task : Task :=
  { id := 1, name := "a b", why := "", eta := none, timeRequired := 60, priority := 50,
    eisenhowerMatrix := "Q2", completed := false, createdAt := 1, updatedAt := 1,
    completedAt := none, comments := [], date := "1970-01-01", overdue := false,
    urgent := false, important := true, smartScoreTenths := 480 }

/-- C8 counterexample: the query `" "` is a non-empty string and its lowercase
form occurs in the task's name, yet `searchTasks` returns the empty list —
the code trims the query before matching, which the claim omits. -/
theorem C8_counterexample :
    searchTasks [c8Task] " " none = [] ∧
    strContains (jsToLower c8Task.name) (jsToLower " ") = true ∧
    (" " : String) ≠ "" := by
  refine ⟨by decide, by decide, by decide⟩

/-- A task whose why contains "FOO", for the C8 witness. -/
def c8wTask : Task :=
  { c8Task with why := "xFOOy" }

/-- Witness for C8: `search(" FOO")` (lowercased and trimmed to "foo")
matches a task whose `why` contains "FOO", case-insensitively. -/
theorem C8_search_amended_witness :
    c8wTask ∈ searchTasks [c8wTask] " FOO" none :=
  ((C8_search_amended [c8wTask] " FOO" none).2 (by decide) c8wTask).mpr
    ⟨by decide, by decide, Or.inr (Or.inl (by decide))⟩

/-! ### C9: the read path never raises -/

/-- C9: `getAllData` is a total function of the store state: a parsed main
slot is returned as-is; on a parse failure the parsed backup is returned when
it parses and a synthesized fresh empty collection otherwise; an absent main
slot is populated with the fresh collection which is then returned.  The
fresh collection migrates to the canonical empty collection (`nextId = 1`). -/
theorem C9_read_recovery (st : KVStore) (now : Int) :
    (∀ d, st.main = some (.parsed d) → getAllData st now = (d, st)) ∧
    (∀ b, st.main = some .bad → st.backup = some (.parsed b) → getAllData st now = (b, st)) ∧
    (st.main = some .bad → (st.backup = none ∨ st.backup = some .bad) →
      getAllData st now = (freshData now, st)) ∧
    (st.main = none →
      getAllData st now = (freshData now, { st with main := some (.parsed (freshData now)) })) ∧
    validateAndMigrate (freshData now) now =
      { version := "1.0.0", createdAt := now, lastModified := now, tasks := [], nextId := 1 } := by
  refine ⟨?_, ?_, ?_, ?_, ?_⟩
  · intro d hd
    simp [getAllData, hd]
  · intro b hm hb
    simp [getAllData, handleStorageError, hm, hb]
  · intro hm hb
    rcases hb with hb | hb <;> simp [getAllData, handleStorageError, hm, hb]
  · intro hm
    simp [getAllData, hm]
  · rfl

/-- Witness for C9: a store whose main slot fails to parse and whose backup
parses recovers the backup. -/
theorem C9_read_recovery_witness :
    getAllData { main := some .bad, backup := some (.parsed (freshData 3)) } 8 =
      (freshData 3, { main := some .bad, backup := some (.parsed (freshData 3)) }) :=
  (C9_read_recovery { main := some .bad, backup := some (.parsed (freshData 3)) } 8).2.1
    (freshData 3) rfl rfl

/-! ### C2: the migrate step -/

/-- C2 (amended): migrate refreshes `lastModified`, re-validates every task
dropping the rejects (a non-object entry is rejected), backfills the missing
top-level fields, and recomputes `nextId` as `max(pre-validation ids) + 1`
(1 when the list is empty) only when `nextId` is absent or zero — an existing
nonzero `nextId` is kept as-is.  The hypothesis `hids` restricts to inputs
where, whenever the recompute fires, every pre-validation entry is an object
carrying a numeric id: outside that region the source's
`Math.max(...tasks.map(t => t.id), 0)` sees `undefined` and persists a `NaN`
(`null`) counter, or throws outright on a `null` entry, which the total model
does not represent (see `maxRawIds`).  When `nextId` is truthy the guarded
recompute never runs and no restriction is needed. -/
theorem C2_migrate (d : RawCollection) (now : Int)
    (hids : (d.nextId = none ∨ d.nextId = some 0) →
      ∀ v ∈ d.tasks.getD [], ∃ r k, v = .obj r ∧ r.id = some k) :
    (validateAndMigrate d now).lastModified = now ∧
    (validateAndMigrate d now).tasks =
      (d.tasks.getD []).filterMap (fun v => validateTask v now) ∧
    validateTask .nonObject now = none ∧
    (d.version = none → (validateAndMigrate d now).version = "1.0.0") ∧
    (d.createdAt = none → (validateAndMigrate d now).createdAt = now) ∧
    (d.tasks = none → (validateAndMigrate d now).tasks = []) ∧
    (∀ n, d.nextId = some n → n ≠ 0 → (validateAndMigrate d now).nextId = n) ∧
    ((d.nextId = none ∨ d.nextId = some 0) →
      (validateAndMigrate d now).nextId = maxRawIds (d.tasks.getD []) + 1) ∧
    (d.nextId = none → d.tasks = none → (validateAndMigrate d now).nextId = 1) := by
  refine ⟨rfl, rfl, rfl, ?_, ?_, ?_, ?_, ?_, ?_⟩
  · intro hv
    simp [validateAndMigrate, jsOrStr, hv]
  · intro hc
    simp [validateAndMigrate, hc]
  · intro ht
    simp [validateAndMigrate, ht]
  · intro n hn hn0
    simp [validateAndMigrate, jsOrNum, hn, hn0]
  · intro hn
    rcases hn with hn | hn <;> simp [validateAndMigrate, jsOrNum, hn]
  · intro hn ht
    simp [validateAndMigrate, jsOrNum, hn, ht, maxRawIds]

/-- The existing collection for the C2 counterexample: a truthy `nextId = 1`
with a stored task of id 5. -/
def c2Cex : RawCollection :=
  { version := some "1.0.0", createdAt := some 3, lastModified := some 3,
    tasks := some [.obj { id := some 5, name := some "a", why := some "b" }],
    nextId := some 1 }

/-- C2 counterexample: migrate keeps the existing `nextId = 1` instead of
recomputing it to `max(existing ids) + 1 = 6` — the recompute happens only
when `nextId` is missing or zero. -/
theorem C2_counterexample :
    (validateAndMigrate c2Cex 9).nextId = 1 ∧
    maxRawIds (c2Cex.tasks.getD []) + 1 = 6 ∧
    ((1 : Int) = 6 → False) := by
  refine ⟨by decide, by decide, by decide⟩

/-- Witness for C2 on the fully-missing raw collection (the ids-present
hypothesis holds vacuously: the task list is empty). -/
theorem C2_migrate_witness :
    (validateAndMigrate { } 7).nextId = 1 ∧
    (validateAndMigrate { } 7).version = "1.0.0" ∧
    (validateAndMigrate { } 7).lastModified = 7 :=
  ⟨(C2_migrate { } 7 (by intro h v hv; exact absurd hv (List.not_mem_nil v))).2.2.2.2.2.2.2.2
      rfl rfl,
    (C2_migrate { } 7 (by intro h v hv; exact absurd hv (List.not_mem_nil v))).2.2.2.1 rfl,
    (C2_migrate { } 7 (by intro h v hv; exact absurd hv (List.not_mem_nil v))).1⟩

/-! ### C1: invariant preservation helpers -/

theorem GoodPair.append {ts : List Task} {nid : Int} (h : GoodPair ts nid) (t : Task)
    (ht : t.id = nid) : GoodPair (ts ++ [t]) (nid + 1) := by
  obtain ⟨hb, hnd, hpos⟩ := h
  refine ⟨?_, ?_, by omega⟩
  · intro x hx
    rcases List.mem_append.1 hx with hx | hx
    · have := hb x hx
      omega
    · rw [List.mem_singleton.1 hx, ht]
      omega
  · rw [List.map_append, List.nodup_append]
    refine ⟨hnd, by simp, ?_⟩
    intro a ha hb'
    obtain ⟨x, hx, hxa⟩ := List.mem_map.1 ha
    have hba := hb x hx
    have : a = t.id := by simpa using hb'
    omega

theorem GoodPair.of_same_ids {ts : List Task} {nid : Int} (h : GoodPair ts nid)
    (ts' : List Task) (hids : ts'.map (fun t => t.id) = ts.map (fun t => t.id)) :
    GoodPair ts' nid := by
  obtain ⟨hb, hnd, hpos⟩ := h
  refine ⟨?_, by rw [hids]; exact hnd, hpos⟩
  intro x hx
  have hmm : x.id ∈ ts'.map (fun t => t.id) := List.mem_map_of_mem _ hx
  rw [hids] at hmm
  obtain ⟨y, hy, hxy⟩ := List.mem_map.1 hmm
  have := hb y hy
  omega

theorem GoodPair.of_sublist {ts : List Task} {nid : Int} (h : GoodPair ts nid)
    (ts' : List Task) (hsub : ts'.Sublist ts) : GoodPair ts' nid := by
  obtain ⟨hb, hnd, hpos⟩ := h
  exact ⟨fun t ht => hb t (hsub.mem ht),
    (hsub.map (fun t => t.id)).nodup hnd, hpos⟩

theorem pushCommentFirst_map_id (tid : Int) (cm : CommentVal) (now : Int) :
    ∀ ts : List Task,
      (pushCommentFirst tid cm now ts).map (fun t => t.id) = ts.map (fun t => t.id) := by
  intro ts
  induction ts with
  | nil => rfl
  | cons t ts ih =>
    simp only [pushCommentFirst]
    split_ifs with h
    · simp
    · simp [ih]

theorem jsMapGet_mem {ts : List Task} {k : Int} {t : Task} (h : jsMapGet ts k = some t) :
    t ∈ ts ∧ t.id = k := by
  have h' : ts.reverse.find? (fun t => t.id == k) = some t := h
  constructor
  · exact List.mem_reverse.1 (List.mem_of_find?_eq_some h')
  · have hp := List.find?_some h'
    simp only [beq_iff_eq] at hp
    exact hp

theorem reorderPass_ids (ts : List Task) (now : Int) :
    ∀ (ids : List Int) (i : Nat),
      (reorderPass ts now ids i).map (fun t => t.id) =
        ids.filter (fun k => (jsMapGet ts k).isSome) := by
  intro ids
  induction ids with
  | nil => intro i; rfl
  | cons k ks ih =>
    intro i
    simp only [reorderPass, List.filter_cons]
    cases hf : jsMapGet ts k with
    | some t =>
      have htid := (jsMapGet_mem hf).2
      simp [hf, htid, ih]
    | none => simp [hf, ih]

theorem reorderPass_mem (ts : List Task) (now : Int) :
    ∀ (ids : List Int) (i : Nat) (x : Task), x ∈ reorderPass ts now ids i →
      ∃ t ∈ ts, x.id = t.id := by
  intro ids
  induction ids with
  | nil => intro i x hx; simp [reorderPass] at hx
  | cons k ks ih =>
    intro i x hx
    simp only [reorderPass] at hx
    cases hf : jsMapGet ts k with
    | some t =>
      rw [hf] at hx
      rcases List.mem_cons.1 hx with hx | hx
      · exact ⟨t, (jsMapGet_mem hf).1, by rw [hx]⟩
      · exact ih (i + 1) x hx
    | none =>
      rw [hf] at hx
      exact ih (i + 1) x hx

theorem foldl_max_init_le (l : List Int) : ∀ a : Int, a ≤ l.foldl max a := by
  induction l with
  | nil => intro a; exact le_refl a
  | cons b l ih =>
    intro a
    calc a ≤ max a b := le_max_left a b
    _ ≤ (b :: l).foldl max a := by simp only [List.foldl_cons]; exact ih (max a b)

theorem mem_le_foldl_max (l : List Int) : ∀ (a x : Int), x ∈ l → x ≤ l.foldl max a := by
  induction l with
  | nil => intro a x hx; simp at hx
  | cons b l ih =>
    intro a x hx
    rcases List.mem_cons.1 hx with hx | hx
    · subst hx
      calc x ≤ max a x := le_max_right a x
      _ ≤ l.foldl max (max a x) := foldl_max_init_le l (max a x)
    · exact ih (max a b) x hx

theorem filterMap_validate_ids (now : Int) :
    ∀ (l : List RawVal) (n : Int),
      (∀ v ∈ l, ∀ r, v = .obj r → ∃ k, r.id = some k ∧ 0 < k ∧ k < n) →
      ((l.filterMap (fun v => validateTask v now)).map (fun t => t.id) =
        l.filterMap rawIdOf) := by
  intro l
  induction l with
  | nil => intro n _; rfl
  | cons v l ih =>
    intro n hids
    cases v with
    | nonObject =>
      simp only [List.filterMap_cons, validateTask, rawIdOf]
      exact ih n (fun w hw => hids w (List.mem_cons_of_mem _ hw))
    | obj r =>
      obtain ⟨k, hk, hk0, _⟩ := hids (.obj r) (List.mem_cons_self _ _) r rfl
      have hid : (validatedOf r now).id = k := by
        show jsOrNum r.id now = k
        rw [hk]
        exact jsOrNum_of_ne _ _ (by omega)
      have hv : validateTask (.obj r) now = some (validatedOf r now) := rfl
      have hr : rawIdOf (.obj r) = some k := hk
      simp only [List.filterMap_cons, hv, hr, List.map_cons, hid]
      rw [ih n (fun w hw => hids w (List.mem_cons_of_mem _ hw))]



/-- C1 (amended): starting from a collection satisfying the invariant (with
positive ids), every successful add, update, delete and addComment preserves
it; reorder preserves it when `orderedIds` is duplicate-free; import
establishes it when the validated incoming ids are distinct and positive; and
migrate re-establishes it from a serialized invariant-satisfying collection.
(Unrestricted, `reorder` with a duplicated id or an import with colliding ids
breaks id distinctness — see the counterexample.) -/
theorem C1_invariant_preservation (c : Collection) (h : GoodIds c) :
    (∀ raw now saveOk c' t, addTask c raw now saveOk = .ok (c', t) → GoodIds c') ∧
    (∀ tid p now saveOk c' t, updateTask c tid p now saveOk = .ok (c', t) → GoodIds c') ∧
    (∀ tid now saveOk c', deleteTask c tid now saveOk = .ok c' → GoodIds c') ∧
    (∀ tid s now saveOk c' cm, addComment c tid s now saveOk = .ok (c', cm) → GoodIds c') ∧
    (∀ ids now saveOk c', ids.Nodup → reorderTasks c ids now saveOk = .ok c' → GoodIds c') ∧
    (∀ payload now saveOk c' n,
      (((payload.tasks.getD []).filterMap (fun v => validateTask v now)).map
        (fun t => t.id)).Nodup →
      (∀ t ∈ (payload.tasks.getD []).filterMap (fun v => validateTask v now), 0 < t.id) →
      importData payload now saveOk = .ok (c', n) → GoodIds c') ∧
    (∀ d now n l, d.nextId = some n → 0 < n → d.tasks = some l →
      (∀ v ∈ l, ∀ r, v = .obj r → ∃ k, r.id = some k ∧ 0 < k ∧ k < n) →
      (l.filterMap rawIdOf).Nodup →
      GoodIds (validateAndMigrate d now)) := by
  have hg : GoodPair c.tasks c.nextId := h
  obtain ⟨hb, hnd, hpos⟩ := hg
  refine ⟨?_, ?_, ?_, ?_, ?_, ?_, ?_⟩
  · -- addTask
    intro raw now saveOk c' t hok
    simp only [addTask, validateTask] at hok
    split_ifs at hok with h1 h2
    rw [Except.ok.injEq, Prod.mk.injEq] at hok
    obtain ⟨hc', _⟩ := hok
    subst hc'
    refine GoodPair.append h _ ?_
    show jsOrNum (some c.nextId) now = c.nextId
    exact jsOrNum_of_ne _ _ (by omega)
  · -- updateTask
    intro tid p now saveOk c' t hok
    cases hm : updateFirst tid p now c.tasks with
    | notFound => simp [updateTask, hm] at hok
    | invalid => simp [updateTask, hm] at hok
    | ok ts u =>
      simp only [updateTask, hm] at hok
      split_ifs at hok with hs
      rw [Except.ok.injEq, Prod.mk.injEq] at hok
      obtain ⟨hc', _⟩ := hok
      subst hc'
      obtain ⟨pre, cur, post, hts, hpre, hcur, hu, hts'⟩ :=
        updateFirst_ok_decomp _ _ _ _ _ _ hm
      have hcurmem : cur ∈ c.tasks := by
        rw [hts]
        exact List.mem_append.2 (Or.inr (List.mem_cons_self _ _))
      have hcurpos := (hb cur hcurmem).1
      have htid0 : tid ≠ 0 := by rw [← hcur]; omega
      have huid : u.id = cur.id := by
        rw [hu, hcur]
        show jsOrNum (some tid) now = tid
        exact jsOrNum_of_ne _ _ htid0
      refine GoodPair.of_same_ids h ts ?_
      rw [hts', hts]
      simp [huid]
  · -- deleteTask
    intro tid now saveOk c' hok
    simp only [deleteTask] at hok
    split_ifs at hok with h1 h2
    rw [Except.ok.injEq] at hok
    subst hok
    exact GoodPair.of_sublist h _ (List.filter_sublist _)
  · -- addComment
    intro tid s now saveOk c' cm hok
    cases hf : c.tasks.find? (fun t => t.id == tid) with
    | none => simp [addComment, hf] at hok
    | some w =>
      simp only [addComment, hf] at hok
      split_ifs at hok with h1 h2
      rw [Except.ok.injEq, Prod.mk.injEq] at hok
      obtain ⟨hc', _⟩ := hok
      subst hc'
      exact GoodPair.of_same_ids h _ (pushCommentFirst_map_id _ _ _ _)
  · -- reorderTasks with duplicate-free ids
    intro ids now saveOk c' hnd' hok
    simp only [reorderTasks] at hok
    split_ifs at hok with hs
    rw [Except.ok.injEq] at hok
    subst hok
    show GoodPair (reorderPass c.tasks now ids 0 ++
      c.tasks.filter (fun t => !(ids.contains t.id))) c.nextId
    refine ⟨?_, ?_, hpos⟩
    · intro x hx
      rcases List.mem_append.1 hx with hx | hx
      · obtain ⟨t, htmem, hxid⟩ := reorderPass_mem c.tasks now ids 0 x hx
        have := hb t htmem
        omega
      · exact hb x (List.mem_of_mem_filter hx)
    · rw [List.map_append, List.nodup_append]
      refine ⟨?_, ?_, ?_⟩
      · rw [reorderPass_ids]
        exact hnd'.filter _
      · exact ((List.filter_sublist _).map _).nodup hnd
      · intro a ha hbmem
        rw [reorderPass_ids] at ha
        have haids : a ∈ ids := List.mem_of_mem_filter ha
        obtain ⟨x, hx, hxa⟩ := List.mem_map.1 hbmem
        have hxf := (List.mem_filter.1 hx).2
        rw [Bool.not_eq_true'] at hxf
        have hxnot : x.id ∉ ids := by
          intro hmemx
          have hcx : ids.contains x.id = true := List.elem_eq_true_of_mem hmemx
          rw [hxf] at hcx
          exact Bool.noConfusion hcx
        rw [hxa] at hxnot
        exact hxnot haids
  · -- importData
    intro payload now saveOk c' n hnd' hposids hok
    cases hp : payload.tasks with
    | none => simp [importData, hp] at hok
    | some l =>
      rw [hp, Option.getD_some] at hnd' hposids
      simp only [importData, hp] at hok
      split_ifs at hok with hs
      rw [Except.ok.injEq, Prod.mk.injEq] at hok
      obtain ⟨hc', _⟩ := hok
      subst hc'
      show GoodPair (l.filterMap (fun v => validateTask v now))
        (((l.filterMap (fun v => validateTask v now)).map (fun t => t.id)).foldl max 0 + 1)
      refine ⟨?_, hnd', ?_⟩
      · intro t ht
        have hle := mem_le_foldl_max
          ((l.filterMap (fun v => validateTask v now)).map (fun t => t.id)) 0 t.id
          (List.mem_map_of_mem _ ht)
        have := hposids t ht
        constructor
        · omega
        · omega
      · have := foldl_max_init_le
          ((l.filterMap (fun v => validateTask v now)).map (fun t => t.id)) 0
        omega
  · -- validateAndMigrate
    intro d now n l hn hn0 htasks hids hndraw
    show GoodPair (validateAndMigrate d now).tasks (validateAndMigrate d now).nextId
    have htasksval : (validateAndMigrate d now).tasks =
        l.filterMap (fun v => validateTask v now) := by
      simp [validateAndMigrate, htasks]
    have hnext : (validateAndMigrate d now).nextId = n := by
      simp only [validateAndMigrate, jsOrNum, hn]
      rw [if_neg (by omega)]
    rw [htasksval, hnext]
    have hidseq := filterMap_validate_ids now l n hids
    refine ⟨?_, ?_, by omega⟩
    · intro t ht
      have hmm : t.id ∈ (l.filterMap (fun v => validateTask v now)).map (fun t => t.id) :=
        List.mem_map_of_mem _ ht
      rw [hidseq] at hmm
      obtain ⟨v, hv, hraw⟩ := List.mem_filterMap.1 hmm
      cases v with
      | nonObject => exact absurd hraw (by simp [rawIdOf])
      | obj r =>
        obtain ⟨k, hk, hk0, hkn⟩ := hids _ hv r rfl
        have hrid : r.id = some t.id := hraw
        rw [hk] at hrid
        injection hrid with hkt
        omega
    · rw [hidseq]
      exact hndraw

/-- The single-task collection for the C1 counterexample. -/
def c1Task : Task :=
  { id := 1, name := "a", why := "w", eta := none, timeRequired := 60, priority := 50,
    eisenhowerMatrix := "Q2", completed := false, createdAt := 1, updatedAt := 1,
    completedAt := none, comments := [], date := "1970-01-01", overdue := false,
    urgent := false, important := true, smartScoreTenths := 480 }

def c1Coll : Collection :=
  { version := "1.0.0", createdAt := 1, lastModified := 1, tasks := [c1Task], nextId := 2 }

/-- The collection `reorder([1,1])` persists from `c1Coll`. -/
def c1After : Collection :=
  { version := "1.0.0", createdAt := 1, lastModified := 7,
    tasks := [{ c1Task with priority := 1, updatedAt := 7 },
      { c1Task with priority := 2, updatedAt := 7 }], nextId := 2 }

/-- C1 counterexample: from an invariant-satisfying collection,
`reorder([1,1])` (a repository operation) persists a collection whose task
ids are not pairwise distinct — task 1 appears twice. -/
theorem C1_counterexample :
    GoodIds c1Coll ∧
    reorderTasks c1Coll [1, 1] 7 true = .ok c1After ∧
    ¬ (c1After.tasks.map (fun t => t.id)).Nodup := by
  refine ⟨by decide, by decide, by decide⟩

/-- The empty collection and the result of adding one task, for the C1
witness. -/
def c1WitColl : Collection :=
  { version := "1.0.0", createdAt := 1, lastModified := 1, tasks := [], nextId := 1 }

def c1WitTask : Task :=
  { id := 1, name := "a", why := "b", eta := none, timeRequired := 60, priority := 50,
    eisenhowerMatrix := "Q2", completed := false, createdAt := 5, updatedAt := 5,
    completedAt := none, comments := [], date := "1970-01-01", overdue := false,
    urgent := false, important := true, smartScoreTenths := 480 }

def c1WitAfter : Collection :=
  { version := "1.0.0", createdAt := 1, lastModified := 5, tasks := [c1WitTask], nextId := 2 }

/-- Witness for C1: adding a task to the empty collection preserves the
invariant. -/
theorem C1_invariant_preservation_witness :
    GoodIds c1WitColl ∧ GoodIds c1WitAfter :=
  ⟨by decide,
    (C1_invariant_preservation c1WitColl (by decide)).1 { name := some "a", why := some "b" }
      5 true c1WitAfter c1WitTask (by decide)⟩

end DPT
